import Mathlib

/-!
Verification of the configuration-resolution and access-control core of the
Simple Configuration Server (SCS).

The definitions below are a shallow embedding of the Python source:

* `PVal` models the parsed YAML / Python data values that flow through the
  server (`None`, booleans, integers, strings, lists, string-keyed dicts,
  and `SCSSecret` marker objects from `src/scs/yaml.py`).
* `serializeSecrets` embeds `serialize_secrets` (src/scs/yaml.py, lines
  275-304).  The Python function mutates its argument in place and returns a
  set of ids; the embedding returns the mutated structure together with that
  set.
* `secretConstruct` embeds `SCSSecretConstructor.construct`
  (src/scs/yaml.py, lines 322-327).

Python dicts are modelled as association lists in insertion order with
unique keys; dict iteration is left-to-right over that list.
-/

namespace SCS

/-- Model of the Python/YAML values handled by SCS: scalars, lists,
string-keyed dicts, and `SCSSecret` marker objects (id, value). -/
inductive PVal where
  | pnone : PVal
  | pbool : Bool → PVal
  | pint : Int → PVal
  | pstr : String → PVal
  | plist : List PVal → PVal
  | pdict : List (String × PVal) → PVal
  | psecret : String → PVal → PVal

mutual

/--
Embedding of `serialize_secrets` (src/scs/yaml.py lines 275-304) and of the
recursive calls it makes on list items and dict values.

* on a list (lines 288-294): an item that is an `SCSSecret` is replaced by
  its value and its id collected; any other item is recursed into with
  `serialize_secrets(item)` whose RETURN VALUE IS DISCARDED (line 294), so
  only the in-place mutation survives;
* on a dict (lines 295-302): a value that is a dict or list is recursed
  into and the returned ids are collected (lines 297-299); a value that is
  an `SCSSecret` is replaced by its value and its id collected (lines
  300-302); other values pass through;
* on anything else (including a top-level `SCSSecret`): no change, empty
  id set (the function body only handles `list` and `dict`).
-/
def serializeSecrets : PVal → PVal × Finset String
  | .plist xs => ((.plist (serializeList xs).1 : PVal), (serializeList xs).2)
  | .pdict kvs => ((.pdict (serializeDict kvs).1 : PVal), (serializeDict kvs).2)
  | v => (v, ∅)

def serializeList : List PVal → List PVal × Finset String
  | [] => ([], ∅)
  | .psecret i v :: rest => ((v :: (serializeList rest).1), insert i (serializeList rest).2)
  | .plist xs :: rest =>
      (((.plist (serializeList xs).1 : PVal) :: (serializeList rest).1), (serializeList rest).2)
  | .pdict kvs :: rest =>
      (((.pdict (serializeDict kvs).1 : PVal) :: (serializeList rest).1), (serializeList rest).2)
  | v :: rest => ((v :: (serializeList rest).1), (serializeList rest).2)

def serializeDict : List (String × PVal) → List (String × PVal) × Finset String
  | [] => ([], ∅)
  | (k, .pdict kvs) :: rest =>
      (((k, (.pdict (serializeDict kvs).1 : PVal)) :: (serializeDict rest).1),
        (serializeDict kvs).2 ∪ (serializeDict rest).2)
  | (k, .plist xs) :: rest =>
      (((k, (.plist (serializeList xs).1 : PVal)) :: (serializeDict rest).1),
        (serializeList xs).2 ∪ (serializeDict rest).2)
  | (k, .psecret i v) :: rest =>
      (((k, v) :: (serializeDict rest).1), insert i (serializeDict rest).2)
  | (k, v) :: rest => (((k, v) :: (serializeDict rest).1), (serializeDict rest).2)

end

mutual

/-- `noSecrets v` holds when the structure contains no `SCSSecret` marker at
all (at any depth). -/
def noSecrets : PVal → Bool
  | .plist xs => noSecretsList xs
  | .pdict kvs => noSecretsDict kvs
  | .psecret _ _ => false
  | _ => true

def noSecretsList : List PVal → Bool
  | [] => true
  | v :: rest => noSecrets v && noSecretsList rest

def noSecretsDict : List (String × PVal) → Bool
  | [] => true
  | (_, v) :: rest => noSecrets v && noSecretsDict rest

end

mutual

/-- `cleanSecrets v` holds when every `SCSSecret` marker inside `v` carries a
value that itself contains no further `SCSSecret` marker. -/
def cleanSecrets : PVal → Bool
  | .plist xs => cleanList xs
  | .pdict kvs => cleanDict kvs
  | .psecret _ v => noSecrets v
  | _ => true

def cleanList : List PVal → Bool
  | [] => true
  | v :: rest => cleanSecrets v && cleanList rest

def cleanDict : List (String × PVal) → Bool
  | [] => true
  | (_, v) :: rest => cleanSecrets v && cleanDict rest

end

/-- Embedding of `SCSSecretConstructor.construct` (src/scs/yaml.py lines
322-327): given the tag contents `ref` and the data `refData` resolved by
`_get_data`, it returns `SCSSecret(ref, ref_data)` unconditionally — the
resolved data is never inspected. -/
def secretConstruct (ref : String) (refData : PVal) : PVal :=
  .psecret ref refData

/-!
## Wildcard path patterns (src/scs/tools.py)

`build_pattern_from_path` escapes the wildcard path with `re.escape`,
replaces every `\*` coming from an unescaped `*` by `(.*)`, turns the
escaped form of a literal `\*` back into an escaped asterisk, and compiles
`^...$` with `re.IGNORECASE`.  The net effect on the original string is:
`\*` denotes a literal asterisk, an unescaped `*` denotes a wildcard, and
every other character stands for itself.  `Tok`/`tokenize` model that
token stream and `tokMatch` models matching the compiled Python regex
against a path:

* literal characters compare case-insensitively (`re.IGNORECASE`);
* `(.*)` matches any (possibly empty) run of non-newline characters
  (Python `.` does not match a newline);
* the leading `^` anchors at the start, and the trailing `$` matches at
  the very end of the string or just before a single trailing newline
  (Python end-of-string semantics of `$`).
-/

/-- A token of a compiled wildcard path pattern: a literal character or the
`(.*)` group produced for an unescaped `*`. -/
inductive Tok where
  | lit : Char → Tok
  | star : Tok
deriving DecidableEq

/-- Token stream of `build_pattern_from_path` (src/scs/tools.py lines
80-97) on the original path characters: `\*` → literal `*`, unescaped `*` →
wildcard, anything else → literal. -/
def tokenize : List Char → List Tok
  | '\\' :: '*' :: rest => .lit '*' :: tokenize rest
  | '*' :: rest => .star :: tokenize rest
  | c :: rest => .lit c :: tokenize rest
  | [] => []

/-- The compiled pattern of `build_pattern_from_path` for a path string. -/
def buildPatternFromPath (s : String) : List Tok :=
  tokenize s.toList

/-- Matching the compiled anchored regex `^...$` (with `re.IGNORECASE`)
against a path, with Python semantics: `(.*)` never crosses a newline and
the final `$` also matches just before a single trailing newline. -/
def tokMatch : List Tok → List Char → Bool
  | [], [] => true
  | [], ['\n'] => true
  | [], _ => false
  | .lit c :: ts, d :: ds => (c.toLower == d.toLower) && tokMatch ts ds
  | .lit _ :: _, [] => false
  | .star :: ts, [] => tokMatch ts []
  | .star :: ts, d :: ds =>
      tokMatch ts (d :: ds) || (!(d == '\n') && tokMatch (.star :: ts) ds)
termination_by ts cs => (ts.length, cs.length)

/-- Modelled from the spec: full wildcard matching as the spec words it —
the ENTIRE path must match the pattern, `*` matches any substring,
comparison is case-insensitive.  Used to compare the compiled-regex
behaviour against the spec's notion of matching. -/
def globFull : List Tok → List Char → Bool
  | [], [] => true
  | [], _ => false
  | .lit c :: ts, d :: ds => (c.toLower == d.toLower) && globFull ts ds
  | .lit _ :: _, [] => false
  | .star :: ts, [] => globFull ts []
  | .star :: ts, d :: ds => globFull ts (d :: ds) || globFull (.star :: ts) ds
termination_by ts cs => (ts.length, cs.length)

/-!
## IP networks, whitelists and the auth module (src/scs/auth.py)

An `ipaddress.IPv4Network`/`IPv6Network` is modelled by its address
family and the integer values of its network address and broadcast
address.  `subnet_of` on same-family networks is the interval containment
`other.network_address <= self.network_address and
other.broadcast_address >= self.broadcast_address`; the code below only
ever compares networks of the same family, exactly like the source
(`NetworkWhitelist` keeps the two families in separate lists).
-/

/-- An IP network: address family plus integer network/broadcast
addresses.  A single host address is the network with `netAddr =
bcastAddr`. -/
structure Net where
  v4 : Bool
  netAddr : Nat
  bcastAddr : Nat
deriving DecidableEq

/-- `self.subnet_of(other)` for same-family networks. -/
def subnetOf (a b : Net) : Bool :=
  decide (b.netAddr ≤ a.netAddr) && decide (a.bcastAddr ≤ b.bcastAddr)

/-- `NetworkWhitelist`: the parsed networks, split per address family
(src/scs/auth.py lines 116-144). -/
structure Whitelist where
  ipv4Networks : List Net
  ipv6Networks : List Net
deriving DecidableEq

/-- The `NetworkWhitelist.__init__` loop: each parsed network is appended
to the list of its own family (the `private_only` validation is not
involved in the claims below and is omitted). -/
def Whitelist.ofNetworks (nets : List Net) : Whitelist :=
  ⟨nets.filter (fun n => n.v4), nets.filter (fun n => !n.v4)⟩

/-- `NetworkWhitelist.contains` (src/scs/auth.py lines 146-164): the
network is checked against the whitelisted networks of its own family
only. -/
def Whitelist.contains (w : Whitelist) (n : Net) : Bool :=
  (if n.v4 then w.ipv4Networks else w.ipv6Networks).any (fun m => subnetOf n m)

/-- `NetworkWhitelist.issubset` (src/scs/auth.py lines 166-187): every
IPv4 network must be a subnet of some IPv4 network of the other whitelist,
and likewise for IPv6. -/
def Whitelist.issubset (a b : Whitelist) : Bool :=
  a.ipv4Networks.all (fun n => b.ipv4Networks.any (fun m => subnetOf n m))
    && a.ipv6Networks.all (fun n => b.ipv6Networks.any (fun m => subnetOf n m))

/-- A user entry of scs-users.yaml as far as the whitelist check is
concerned: its id and its `has_access.from_networks` ranges. -/
structure UserEntry where
  id : String
  fromNetworks : List Net
deriving DecidableEq

/-- The per-user whitelist validation of the auth `init` loop
(src/scs/auth.py lines 249-263): each user's parsed whitelist must be a
subset of the global whitelist, otherwise a `ValueError` aborts loading. -/
def authInitUsers (global : Whitelist) : List UserEntry → Except String Unit
  | [] => .ok ()
  | u :: rest =>
      if (Whitelist.ofNetworks u.fromNetworks).issubset global then
        authInitUsers global rest
      else
        .error ("Network whitelist of user " ++ u.id
          ++ " not fully covered by global whitelist")

/-!
## Rate limiter (src/scs/auth.py lines 75-113)

`_get_window_id` builds the window id with the unpadded f-string
`f'{now.year}{now.month}{now.day}{now.hour}{minute_rounded}'`.  The wall
clock is modelled by the `DT` structure; `Nat.repr` matches Python's
unpadded `str(int)` formatting.
-/

/-- A UTC wall-clock instant as used by `_get_window_id`. -/
structure DT where
  year : Nat
  month : Nat
  day : Nat
  hour : Nat
  minute : Nat
deriving DecidableEq

/-- `_RateLimiter._get_window_id` (src/scs/auth.py lines 107-113). -/
def windowId (t : DT) : String :=
  toString t.year ++ toString t.month ++ toString t.day ++ toString t.hour
    ++ toString (t.minute - t.minute % 15)

/-- The `_RateLimiter` state: current window id, per-IP invalid attempt
counts, and the configured maximum. -/
structure RateLimiter where
  currentWindow : String
  invalidAuthAttempts : List (Net × Nat)
  maxAuthFails : Nat
deriving DecidableEq

/-- Python `dict.get(ip, 0)` on the attempts dict. -/
def attemptsGet (m : List (Net × Nat)) (ip : Net) : Nat :=
  ((m.find? (fun p => p.1 == ip)).map Prod.snd).getD 0

/-- Python `dict[ip] = n`: overwrite in place, or append a new key. -/
def attemptsSet : List (Net × Nat) → Net → Nat → List (Net × Nat)
  | [], ip, n => [(ip, n)]
  | (k, v) :: rest, ip, n =>
      if k == ip then (k, n) :: rest else (k, v) :: attemptsSet rest ip n

/-- `_RateLimiter.__init__` (src/scs/auth.py lines 80-83). -/
def limiterFresh (t : DT) (maxFails : Nat) : RateLimiter :=
  ⟨windowId t, [], maxFails⟩

/-- The `invalid_auth_attempts` property (src/scs/auth.py lines 96-105):
reading the counts re-computes the window id and resets the counts when it
differs from the stored one. -/
def limiterRead (lim : RateLimiter) (t : DT) : RateLimiter :=
  if lim.currentWindow ≠ windowId t then
    { lim with currentWindow := windowId t, invalidAuthAttempts := [] }
  else lim

/-- `_RateLimiter.register_attempt` (src/scs/auth.py lines 85-91). -/
def registerAttempt (lim : RateLimiter) (ip : Net) (t : DT) : RateLimiter :=
  let lim := limiterRead lim t
  { lim with
      invalidAuthAttempts :=
        attemptsSet lim.invalidAuthAttempts ip
          (attemptsGet lim.invalidAuthAttempts ip + 1) }

/-- `_RateLimiter.is_limited` (src/scs/auth.py lines 93-94):
`invalid_auth_attempts.get(ip, 0) >= max_auth_fails`. -/
def isLimited (lim : RateLimiter) (ip : Net) (t : DT) : Bool :=
  decide (lim.maxAuthFails ≤ attemptsGet (limiterRead lim t).invalidAuthAttempts ip)

/-- The counts visible for an IP when reading the limiter at time `t`. -/
def limiterCounts (lim : RateLimiter) (ip : Net) (t : DT) : Nat :=
  attemptsGet (limiterRead lim t).invalidAuthAttempts ip

/-!
## `check_auth` (src/scs/auth.py lines 272-311)
-/

/-- A user as stored in `_auth_mapping` after `init`: id, parsed
`from_networks` whitelist and compiled `to_paths` patterns. -/
structure User where
  id : String
  fromNetworks : Whitelist
  toPaths : List (List Tok)
deriving DecidableEq

/-- The data of an incoming request that `check_auth` looks at:
`request.remote_addr` parsed as a single-address network, the optional
`Authorization` header, and `request.path`. -/
structure AuthRequest where
  ip : Net
  authHeader : Option String
  path : String
deriving DecidableEq

/-- The terminal outcome of `check_auth`, labelled with the `abort` call
that produces it. -/
inductive AuthOutcome where
  | unauthorizedIpGlobal : AuthOutcome
  | rateLimited : AuthOutcome
  | unauthenticated : AuthOutcome
  | unauthorizedIpUser : AuthOutcome
  | unauthorizedPath : AuthOutcome
  | allowed : String → AuthOutcome
deriving DecidableEq

/-- The HTTP status of each `check_auth` outcome (`abort(403)` at line 283,
`abort(429)` at line 287, `abort(401)` at line 299, `abort(403)` at lines
303 and 310; an allowed request proceeds, 200 here). -/
def statusOf : AuthOutcome → Nat
  | .unauthorizedIpGlobal => 403
  | .rateLimited => 429
  | .unauthenticated => 401
  | .unauthorizedIpUser => 403
  | .unauthorizedPath => 403
  | .allowed _ => 200

/-- Python `str.removeprefix`: drop `p` from the front of `s` when `s`
starts with it, otherwise return `s` unchanged (stated on the character
lists underlying the strings). -/
def removePrefixStr (s p : String) : String :=
  if p.toList.isPrefixOf s.toList then String.mk (s.toList.drop p.toList.length) else s

/-- Exact-match bearer-token lookup in `_auth_mapping`. -/
def lookupToken (m : List (String × User)) (tok : String) : Option User :=
  (m.find? (fun p => p.1 == tok)).map Prod.snd

/-- Embedding of `check_auth` (src/scs/auth.py lines 272-311), returning
the outcome together with the rate-limiter state after the request:

1. global whitelist check — rejects BEFORE the rate limiter is even read;
2. rate-limit check (reading the limiter applies the window reset);
3. bearer-token lookup — a missing header or unknown token registers a
   failed attempt and rejects as unauthenticated;
4. per-user IP whitelist check;
5. per-user path pattern check (`pattern.match(request.path)`).
-/
def checkAuth (global : Whitelist) (lim : RateLimiter) (t : DT)
    (authMapping : List (String × User)) (req : AuthRequest) :
    AuthOutcome × RateLimiter :=
  if !(global.contains req.ip) then (.unauthorizedIpGlobal, lim)
  else if isLimited lim req.ip t then (.rateLimited, limiterRead lim t)
  else
    match req.authHeader with
    | none => (.unauthenticated, registerAttempt lim req.ip t)
    | some h =>
        match lookupToken authMapping (removePrefixStr h "Bearer ") with
        | none => (.unauthenticated, registerAttempt lim req.ip t)
        | some user =>
            if !(user.fromNetworks.contains req.ip) then
              (.unauthorizedIpUser, limiterRead lim t)
            else if user.toPaths.any (fun pat => tokMatch pat req.path.toList) then
              (.allowed user.id, limiterRead lim t)
            else
              (.unauthorizedPath, limiterRead lim t)

/-!
## Attribute-path walking in `RelativePathMixin._get_data`
(src/scs/yaml.py lines 212-231)

The attribute location is split on `.`; each level is either a list index
(when it matches the prefix regex `\[(\d+)\]`) or a map key.  Each step is
a Python subscript `level_data[...]`; the whole walk sits in a
`try`-block whose `except (KeyError, IndexError)` re-raises the dedicated
`ValueError('The reference ... could not be resolved!')`.  Any other
exception (notably `TypeError` from subscripting with the wrong kind of
index) propagates out of `_get_data` unchanged.

Dicts are modelled with string keys (as produced by the dot-validated
YAML files), so an integer subscript on a dict misses and raises
`KeyError`, as in Python for a dict without integer keys.
-/

/-- The Python exceptions a subscript step can raise. -/
inductive PyExc where
  | keyError : PyExc
  | indexError : PyExc
  | typeError : PyExc
deriving DecidableEq

/-- Value of a digit run, as `int()` computes it. -/
def digitsToNat (ds : List Char) : Nat :=
  ds.foldl (fun a c => a * 10 + (c.toNat - 48)) 0

/-- `index_regex.match(level)` for `re.compile(r'\[(\d+)\]')`
(src/scs/yaml.py line 168): an anchored prefix match returning the
bracketed digits, if any. -/
def matchIndexChars : List Char → Option Nat
  | '[' :: rest =>
      let digits := rest.takeWhile Char.isDigit
      if digits.isEmpty then none
      else
        match rest.drop digits.length with
        | ']' :: _ => some (digitsToNat digits)
        | _ => none
  | _ => none

/-- `index_regex.match` on a level string. -/
def matchIndex (s : String) : Option Nat :=
  matchIndexChars s.toList

/-- Python `dict` lookup on the modelled string-keyed dicts. -/
def dictGet : List (String × PVal) → String → Option PVal
  | [], _ => none
  | (k, v) :: rest, key => if k = key then some v else dictGet rest key

/-- One step `level_data[...]` of the attribute walk (src/scs/yaml.py
lines 218-223): an index level subscripts with an `int`, any other level
subscripts with the level string itself.  Lists and strings accept int
subscripts (`IndexError` out of range), dicts accept string subscripts
(`KeyError` when missing; an int subscript on a string-keyed dict also
misses with `KeyError`); everything else raises `TypeError`. -/
def getItem (data : PVal) (level : String) : Except PyExc PVal :=
  match matchIndex level with
  | some i =>
      match data with
      | .plist xs =>
          match xs.get? i with
          | some v => .ok v
          | none => .error .indexError
      | .pdict _ => .error .keyError
      | .pstr s =>
          match s.toList.get? i with
          | some c => .ok (.pstr (String.mk [c]))
          | none => .error .indexError
      | _ => .error .typeError
  | none =>
      match data with
      | .pdict kvs =>
          match dictGet kvs level with
          | some v => .ok v
          | none => .error .keyError
      | _ => .error .typeError

/-- The `for level in loc_levels` walk (src/scs/yaml.py lines 218-223). -/
def walkLevels : PVal → List String → Except PyExc PVal
  | data, [] => .ok data
  | data, l :: rest =>
      match getItem data l with
      | .ok d => walkLevels d rest
      | .error e => .error e

/-- Outcome of resolving an attribute path: the resolved data, the
dedicated `ValueError('... could not be resolved!')`, or an exception that
escapes `_get_data` uncaught. -/
inductive RefResolution where
  | resolved : PVal → RefResolution
  | refValueError : RefResolution
  | uncaught : PyExc → RefResolution

/-- The `try`/`except (KeyError, IndexError)` wrapper around the walk
(src/scs/yaml.py lines 217-228): `KeyError` and `IndexError` become the
dedicated `ValueError`; any other exception escapes. -/
def resolveAttribute (data : PVal) (levels : List String) : RefResolution :=
  match walkLevels data levels with
  | .ok v => .resolved v
  | .error .keyError => .refValueError
  | .error .indexError => .refValueError
  | .error .typeError => .uncaught .typeError

/-!
## Environment merging (src/scs/configs.py lines 329-378)

`_load_environment` starts from the schema defaults and folds the env
files returned by `_get_env_file_hierarchy` in order.  For each file it
iterates the root-level items and, per child key:

```
if isinstance(child_value, dict):
    combined_env[root_level_key][child_key].update(child_value)
else:
    combined_env[root_level_key][child_key] = child_value
```

A Python `dict` is modelled as an association list with unique keys;
`dict[k] = v` keeps the position of an existing key and appends a new
one; `dict.update` assigns the other dict's items left to right.  The
merge raises (modelled as `none`) when `combined_env[root]` is missing or
not a dict, when a dict child should be merged into a missing or non-dict
value, or when a root-level value of the file is not a dict (no
`.items()`).
-/

/-- Python `d[k] = v` on a string-keyed dict: overwrite in place or append. -/
def dictSet : List (String × PVal) → String → PVal → List (String × PVal)
  | [], key, v => [(key, v)]
  | (k, w) :: rest, key, v =>
      if k = key then (k, v) :: rest else (k, w) :: dictSet rest key v

/-- Python `base.update(other)`: assign every item of `other`, in order. -/
def dictUpdate (base other : List (String × PVal)) : List (String × PVal) :=
  other.foldl (fun acc kv => dictSet acc kv.1 kv.2) base

/-- Is the value a dict (`isinstance(child_value, dict)`)? -/
def isDict : PVal → Bool
  | .pdict _ => true
  | _ => false

/-- The two-armed child merge of `_load_environment` (src/scs/configs.py
lines 373-376), acting on the dict stored at `combined_env[root]`: a dict
child is merged into the existing dict value with `.update` (missing or
non-dict existing value raises), any other child replaces the value. -/
def mergeChild (root : List (String × PVal)) (ck : String) (cv : PVal) :
    Option (List (String × PVal)) :=
  match cv with
  | .pdict kvs =>
      match dictGet root ck with
      | some (.pdict existing) => some (dictSet root ck (.pdict (dictUpdate existing kvs)))
      | _ => none
  | v => some (dictSet root ck v)

/-- One iteration of the inner `for child_key, child_value` loop: look up
`combined_env[root_level_key]` (raising when missing or not a dict) and
apply the child merge to it. -/
def stepChild (rk : String) (env : List (String × PVal)) (kv : String × PVal) :
    Option (List (String × PVal)) :=
  match dictGet env rk with
  | some (.pdict root0) => (mergeChild root0 kv.1 kv.2).map (fun r => dictSet env rk (.pdict r))
  | _ => none

/-- The inner loop over the children of one root-level item. -/
def childrenFold (rk : String) :
    List (String × PVal) → List (String × PVal) → Option (List (String × PVal))
  | env, [] => some env
  | env, kv :: rest =>
      match stepChild rk env kv with
      | some env' => childrenFold rk env' rest
      | none => none

/-- One iteration of the outer `for root_level_key, root_level_value`
loop; a non-dict root-level value has no `.items()` and raises. -/
def mergeRoot (env : List (String × PVal)) (rk : String) (rv : PVal) :
    Option (List (String × PVal)) :=
  match rv with
  | .pdict children => childrenFold rk env children
  | _ => none

/-- Folding one env file's data into the accumulated environment. -/
def mergeFile : List (String × PVal) → List (String × PVal) → Option (List (String × PVal))
  | env, [] => some env
  | env, (rk, rv) :: rest =>
      match mergeRoot env rk rv with
      | some env' => mergeFile env' rest
      | none => none

/-- `_load_environment` (src/scs/configs.py lines 354-378): fold the env
files (in resolution order) over the schema defaults. -/
def loadEnvironment (defaults : List (String × PVal)) :
    List (List (String × PVal)) → Option (List (String × PVal))
  | [] => some defaults
  | f :: fs =>
      match mergeFile defaults f with
      | some env' => loadEnvironment env' fs
      | none => none

/-- The value of the second-level key `r.c` in an environment. -/
def lookup2 (env : List (String × PVal)) (r c : String) : Option PVal :=
  match dictGet env r with
  | some (.pdict d) => dictGet d c
  | _ => none

/-- What an env file sets at the second-level key `r.c`, if anything. -/
def fileSets (file : List (String × PVal)) (r c : String) : Option PVal :=
  match dictGet file r with
  | some (.pdict rv) => dictGet rv c
  | _ => none

/-- An env file as loaded from a Python dict: unique root keys, and unique
child keys inside every root-level dict value. -/
def fileWF (file : List (String × PVal)) : Prop :=
  (file.map Prod.fst).Nodup
    ∧ ∀ p ∈ file, ∀ kvs, p.2 = PVal.pdict kvs → (kvs.map Prod.fst).Nodup

/-- The accumulating prefix loop of `_get_env_file_hierarchy`
(src/scs/configs.py lines 345-348): note the doubled slash produced by
`envfile_basepath + '/scs-env.yaml'` after `envfile_basepath += f'{part}/'`. -/
def envfileAncestors : String → List String → List String
  | _, [] => []
  | base, p :: rest =>
      (base ++ p ++ "/" ++ "/scs-env.yaml") :: envfileAncestors (base ++ p ++ "/") rest

/-- `_get_env_file_hierarchy` (src/scs/configs.py lines 329-351): the root
default file first, then one file per ancestor directory, then the
path-specific file. -/
def getEnvFileHierarchy (relativePath : String) : List String :=
  ("scs-env.yaml" :: envfileAncestors "" ((relativePath.splitOn "/").dropLast))
    ++ [relativePath ++ ".scs-env.yaml"]

mutual

/-- `serialize_secrets` does not change secret-free data and collects no ids. -/
theorem serializeSecrets_of_noSecrets :
    ∀ v : PVal, noSecrets v = true → serializeSecrets v = (v, ∅)
  | .pnone, _ => by simp [serializeSecrets]
  | .pbool _, _ => by simp [serializeSecrets]
  | .pint _, _ => by simp [serializeSecrets]
  | .pstr _, _ => by simp [serializeSecrets]
  | .psecret _ _, h => by simp [noSecrets] at h
  | .plist xs, h => by
      have hl := serializeList_of_noSecrets xs (by simpa [noSecrets] using h)
      simp [serializeSecrets, hl]
  | .pdict kvs, h => by
      have hd := serializeDict_of_noSecrets kvs (by simpa [noSecrets] using h)
      simp [serializeSecrets, hd]

theorem serializeList_of_noSecrets :
    ∀ xs : List PVal, noSecretsList xs = true → serializeList xs = (xs, ∅)
  | [], _ => by simp [serializeList]
  | v :: rest, h => by
      have h1 : noSecrets v = true ∧ noSecretsList rest = true := by
        simpa [noSecretsList, Bool.and_eq_true] using h
      have hr := serializeList_of_noSecrets rest h1.2
      cases v with
      | psecret i w => exact absurd h1.1 (by simp [noSecrets])
      | plist ys =>
          have hy := serializeList_of_noSecrets ys (by simpa [noSecrets] using h1.1)
          simp [serializeList, hy, hr]
      | pdict kvs =>
          have hk := serializeDict_of_noSecrets kvs (by simpa [noSecrets] using h1.1)
          simp [serializeList, hk, hr]
      | pnone => simp [serializeList, hr]
      | pbool b => simp [serializeList, hr]
      | pint n => simp [serializeList, hr]
      | pstr s => simp [serializeList, hr]

theorem serializeDict_of_noSecrets :
    ∀ kvs : List (String × PVal), noSecretsDict kvs = true → serializeDict kvs = (kvs, ∅)
  | [], _ => by simp [serializeDict]
  | (k, v) :: rest, h => by
      have h1 : noSecrets v = true ∧ noSecretsDict rest = true := by
        simpa [noSecretsDict, Bool.and_eq_true] using h
      have hr := serializeDict_of_noSecrets rest h1.2
      cases v with
      | psecret i w => exact absurd h1.1 (by simp [noSecrets])
      | plist ys =>
          have hy := serializeList_of_noSecrets ys (by simpa [noSecrets] using h1.1)
          simp [serializeDict, hy, hr]
      | pdict kvs2 =>
          have hk := serializeDict_of_noSecrets kvs2 (by simpa [noSecrets] using h1.1)
          simp [serializeDict, hk, hr]
      | pnone => simp [serializeDict, hr]
      | pbool b => simp [serializeDict, hr]
      | pint n => simp [serializeDict, hr]
      | pstr s => simp [serializeDict, hr]

end

mutual

/-- One serialization pass over a clean list leaves no secret marker behind. -/
theorem noSecretsList_serializeList :
    ∀ xs : List PVal, cleanList xs = true → noSecretsList (serializeList xs).1 = true
  | [], _ => by simp [serializeList, noSecretsList]
  | v :: rest, h => by
      have h1 : cleanSecrets v = true ∧ cleanList rest = true := by
        simpa [cleanList, Bool.and_eq_true] using h
      have hr := noSecretsList_serializeList rest h1.2
      cases v with
      | psecret i w =>
          have hw : noSecrets w = true := by simpa [cleanSecrets] using h1.1
          simp [serializeList, noSecretsList, hw, hr]
      | plist ys =>
          have hy := noSecretsList_serializeList ys (by simpa [cleanSecrets] using h1.1)
          simp [serializeList, noSecretsList, noSecrets, hy, hr]
      | pdict kvs =>
          have hk := noSecretsDict_serializeDict kvs (by simpa [cleanSecrets] using h1.1)
          simp [serializeList, noSecretsList, noSecrets, hk, hr]
      | pnone => simp [serializeList, noSecretsList, noSecrets, hr]
      | pbool b => simp [serializeList, noSecretsList, noSecrets, hr]
      | pint n => simp [serializeList, noSecretsList, noSecrets, hr]
      | pstr s => simp [serializeList, noSecretsList, noSecrets, hr]

/-- One serialization pass over a clean dict leaves no secret marker behind. -/
theorem noSecretsDict_serializeDict :
    ∀ kvs : List (String × PVal), cleanDict kvs = true → noSecretsDict (serializeDict kvs).1 = true
  | [], _ => by simp [serializeDict, noSecretsDict]
  | (k, v) :: rest, h => by
      have h1 : cleanSecrets v = true ∧ cleanDict rest = true := by
        simpa [cleanDict, Bool.and_eq_true] using h
      have hr := noSecretsDict_serializeDict rest h1.2
      cases v with
      | psecret i w =>
          have hw : noSecrets w = true := by simpa [cleanSecrets] using h1.1
          simp [serializeDict, noSecretsDict, hw, hr]
      | plist ys =>
          have hy := noSecretsList_serializeList ys (by simpa [cleanSecrets] using h1.1)
          simp [serializeDict, noSecretsDict, noSecrets, hy, hr]
      | pdict kvs2 =>
          have hk := noSecretsDict_serializeDict kvs2 (by simpa [cleanSecrets] using h1.1)
          simp [serializeDict, noSecretsDict, noSecrets, hk, hr]
      | pnone => simp [serializeDict, noSecretsDict, noSecrets, hr]
      | pbool b => simp [serializeDict, noSecretsDict, noSecrets, hr]
      | pint n => simp [serializeDict, noSecretsDict, noSecrets, hr]
      | pstr s => simp [serializeDict, noSecretsDict, noSecrets, hr]

end

/-- C1: `serialize_secrets` is claimed to return the id of every secret it
replaces, also for secrets sitting inside containers nested within a list.
The code (src/scs/yaml.py line 294) discards the id set returned by the
recursive call on non-secret list items, so for the input
`[[Secret("a", 1)]]` the nested secret is replaced in place, yet the
returned id set is empty: "a" is silently dropped, contradicting the
function's own docstring ("Returns: The id's of the secrets that were
serialized"). -/
theorem claim_C1_nested_list_secret_id_dropped :
    (serializeSecrets (.plist [.plist [.psecret "a" (.pint 1)]])).1
        = .plist [.plist [.pint 1]]
    ∧ (serializeSecrets (.plist [.plist [.psecret "a" (.pint 1)]])).2 = ∅
    ∧ "a" ∉ (serializeSecrets (.plist [.plist [.psecret "a" (.pint 1)]])).2 := by
  refine ⟨?_, ?_, ?_⟩ <;> simp [serializeSecrets, serializeList]

/-- C6 (counterexample): the claim says the secret tag constructor returns an
already-`Secret` resolved value unwrapped.  The code
(src/scs/yaml.py lines 322-327) has no such check: at ref `"a"` resolving to
the secret marker `Secret("b", 1)` the constructor does NOT return that
marker, it double-wraps it. -/
theorem claim_C6_counterexample :
    secretConstruct "a" (.psecret "b" (.pint 1)) ≠ .psecret "b" (.pint 1)
    ∧ secretConstruct "a" (.psecret "b" (.pint 1))
        = .psecret "a" (.psecret "b" (.pint 1)) := by
  constructor
  · simp [secretConstruct]
  · rfl

/-- C6 (amended): `SCSSecretConstructor.construct` wraps EVERY resolved value
as `Secret{id: originalTagValue, value: resolvedValue}`, without inspecting
it; in particular a resolved value that is already a `Secret` marker is
wrapped a second time (double-wrapping does occur). -/
theorem claim_C6_construct_always_wraps :
    (∀ (ref : String) (v : PVal), secretConstruct ref v = .psecret ref v)
    ∧ ∀ (ref id0 : String) (v0 : PVal),
        secretConstruct ref (.psecret id0 v0) = .psecret ref (.psecret id0 v0) :=
  ⟨fun _ _ => rfl, fun _ _ _ => rfl⟩

/-- C8 (counterexample): `serialize_secrets` is claimed idempotent on every
data structure.  When a secret's substituted value itself contains a secret
marker, the second pass re-scans the substituted value: on
`{"k": Secret("a", {"m": Secret("b", 0)})}` the first pass substitutes the
value of `"a"`, and the second pass then replaces the inner `Secret("b",·)`
and returns the non-empty id set `{"b"}` — the structure changes and the
second touched-id set is not empty. -/
theorem claim_C8_counterexample :
    (serializeSecrets
        (serializeSecrets
          (.pdict [("k", .psecret "a" (.pdict [("m", .psecret "b" (.pint 0))]))])).1).2
      ≠ ∅
    ∧ (serializeSecrets
        (serializeSecrets
          (.pdict [("k", .psecret "a" (.pdict [("m", .psecret "b" (.pint 0))]))])).1).1
      ≠ (serializeSecrets
          (.pdict [("k", .psecret "a" (.pdict [("m", .psecret "b" (.pint 0))]))])).1 := by
  constructor
  · simp [serializeSecrets, serializeDict]
  · simp [serializeSecrets, serializeDict]

/-- C8 (amended): `serialize_secrets` is idempotent on every data structure
in which no secret marker's value contains a further secret marker
(substituted values may contain arbitrary secret-free nested structures,
which are used verbatim): the second call returns the unchanged structure
and an empty touched-id set. -/
theorem claim_C8_serialize_idempotent_on_clean (v : PVal)
    (h : cleanSecrets v = true) :
    serializeSecrets (serializeSecrets v).1 = ((serializeSecrets v).1, ∅) := by
  cases v with
  | pnone => simp [serializeSecrets]
  | pbool b => simp [serializeSecrets]
  | pint n => simp [serializeSecrets]
  | pstr s => simp [serializeSecrets]
  | psecret i w => simp [serializeSecrets]
  | plist xs =>
      have hx := noSecretsList_serializeList xs (by simpa [cleanSecrets] using h)
      have := serializeList_of_noSecrets (serializeList xs).1 hx
      simp [serializeSecrets, this]
  | pdict kvs =>
      have hk := noSecretsDict_serializeDict kvs (by simpa [cleanSecrets] using h)
      have := serializeDict_of_noSecrets (serializeDict kvs).1 hk
      simp [serializeSecrets, this]

/-- C8 (witness): the amended idempotence theorem applied at the concrete
clean input `{"k": Secret("a", [7])}`. -/
theorem claim_C8_witness :
    serializeSecrets (serializeSecrets (.pdict [("k", .psecret "a" (.plist [.pint 7]))])).1
      = ((serializeSecrets (.pdict [("k", .psecret "a" (.plist [.pint 7]))])).1, ∅) :=
  claim_C8_serialize_idempotent_on_clean
    (.pdict [("k", .psecret "a" (.plist [.pint 7]))])
    (by simp [cleanSecrets, cleanDict, cleanList, noSecrets, noSecretsList])

/-- A parsed whitelist fails the subset check against `g` exactly when one
of its ranges is a subnet of no same-family range of `g`. -/
theorem ofNetworks_issubset_eq_false (g : Whitelist) (ns : List Net) :
    (Whitelist.ofNetworks ns).issubset g = false
    ↔ ∃ n ∈ ns,
        (n.v4 = true ∧ ∀ m ∈ g.ipv4Networks, subnetOf n m = false)
        ∨ (n.v4 = false ∧ ∀ m ∈ g.ipv6Networks, subnetOf n m = false) := by
  rw [Bool.eq_false_iff]
  simp only [Whitelist.issubset, Whitelist.ofNetworks, ne_eq, Bool.and_eq_true,
    List.all_eq_true, List.any_eq_true, List.mem_filter, not_and_or, not_forall,
    Bool.not_eq_true]
  constructor
  · rintro (⟨n, ⟨hn, hv⟩, hno⟩ | ⟨n, ⟨hn, hv⟩, hno⟩)
    · refine ⟨n, hn, Or.inl ⟨hv, ?_⟩⟩
      intro m hm
      by_contra hc
      exact hno ⟨m, hm, by simpa using hc⟩
    · refine ⟨n, hn, Or.inr ⟨by simpa using hv, ?_⟩⟩
      intro m hm
      by_contra hc
      exact hno ⟨m, hm, by simpa using hc⟩
  · rintro ⟨n, hn, ⟨hv, hno⟩ | ⟨hv, hno⟩⟩
    · exact Or.inl ⟨n, ⟨hn, hv⟩, by simpa using fun m hm => by simpa using hno m hm⟩
    · exact Or.inr ⟨n, ⟨hn, by simp [hv]⟩, by simpa using fun m hm => by simpa using hno m hm⟩

/-- C2: loading the user configuration fails if and only if some range of
some user's whitelist is a subnet of no same-family range of the global
whitelist (IPv4 user ranges are compared against IPv4 global ranges only,
IPv6 against IPv6); when every user range is covered, loading succeeds. -/
theorem claim_C2_user_whitelist_subset_check (g : Whitelist) (users : List UserEntry) :
    (∃ e, authInitUsers g users = .error e)
    ↔ ∃ u ∈ users, ∃ n ∈ u.fromNetworks,
        (n.v4 = true ∧ ∀ m ∈ g.ipv4Networks, subnetOf n m = false)
        ∨ (n.v4 = false ∧ ∀ m ∈ g.ipv6Networks, subnetOf n m = false) := by
  have key : (∃ e, authInitUsers g users = .error e)
      ↔ ∃ u ∈ users, (Whitelist.ofNetworks u.fromNetworks).issubset g = false := by
    induction users with
    | nil => simp [authInitUsers]
    | cons u rest ih =>
        by_cases h : (Whitelist.ofNetworks u.fromNetworks).issubset g = true
        · simp [authInitUsers, h, ih]
        · rw [Bool.not_eq_true] at h
          simp [authInitUsers, h]
  rw [key]
  simp only [ofNetworks_issubset_eq_false g]

/-- C2 (witness): with an empty global whitelist, a user with the IPv4
range [0, 10] makes loading fail. -/
theorem claim_C2_witness :
    ∃ e, authInitUsers ⟨[], []⟩ [⟨"alice", [⟨true, 0, 10⟩]⟩] = .error e :=
  (claim_C2_user_whitelist_subset_check ⟨[], []⟩ [⟨"alice", [⟨true, 0, 10⟩]⟩]).mpr
    ⟨⟨"alice", [⟨true, 0, 10⟩]⟩, by simp, ⟨true, 0, 10⟩, by simp,
      Or.inl ⟨rfl, by simp⟩⟩

/-- C3 (counterexample): with global whitelist 192.168.1.0/24
(= [3232235776, 3232236031]) a request from 172.16.0.5 (= 2886729733) is
rejected by the global check with HTTP status 403, not 401 as the claim
states. -/
theorem claim_C3_counterexample :
    (checkAuth ⟨[⟨true, 3232235776, 3232236031⟩], []⟩
        (limiterFresh ⟨2022, 1, 1, 0, 0⟩ 10) ⟨2022, 1, 1, 0, 0⟩ []
        ⟨⟨true, 2886729733, 2886729733⟩, some "Bearer T", "/configs/x"⟩).1
      = .unauthorizedIpGlobal
    ∧ statusOf
        (checkAuth ⟨[⟨true, 3232235776, 3232236031⟩], []⟩
          (limiterFresh ⟨2022, 1, 1, 0, 0⟩ 10) ⟨2022, 1, 1, 0, 0⟩ []
          ⟨⟨true, 2886729733, 2886729733⟩, some "Bearer T", "/configs/x"⟩).1
      = 403
    ∧ statusOf
        (checkAuth ⟨[⟨true, 3232235776, 3232236031⟩], []⟩
          (limiterFresh ⟨2022, 1, 1, 0, 0⟩ 10) ⟨2022, 1, 1, 0, 0⟩ []
          ⟨⟨true, 2886729733, 2886729733⟩, some "Bearer T", "/configs/x"⟩).1
      ≠ 401 := by
  decide

/-- C3 (amended): a request whose client IP is contained in no globally
whitelisted range is rejected with HTTP status 403 (`unauthorized-ip`)
before any rate-limit check, token lookup or per-user check: the outcome
does not depend on the limiter state or the token mapping, and the
rate-limiter state is returned untouched (it is never even read). -/
theorem claim_C3_global_reject_is_403_and_first (g : Whitelist)
    (lim : RateLimiter) (t : DT) (m : List (String × User)) (req : AuthRequest)
    (h : g.contains req.ip = false) :
    checkAuth g lim t m req = (.unauthorizedIpGlobal, lim)
    ∧ statusOf .unauthorizedIpGlobal = 403 := by
  refine ⟨?_, rfl⟩
  simp [checkAuth, h]

/-- C3 (witness): the amended theorem applied at the concrete request from
172.16.0.5 against the global whitelist 192.168.1.0/24. -/
theorem claim_C3_witness :
    checkAuth ⟨[⟨true, 3232235776, 3232236031⟩], []⟩
        (limiterFresh ⟨2022, 1, 1, 0, 0⟩ 10) ⟨2022, 1, 1, 0, 0⟩ []
        ⟨⟨true, 2886729733, 2886729733⟩, some "Bearer T", "/configs/x"⟩
      = (.unauthorizedIpGlobal, limiterFresh ⟨2022, 1, 1, 0, 0⟩ 10)
    ∧ statusOf .unauthorizedIpGlobal = 403 :=
  claim_C3_global_reject_is_403_and_first _ _ _ _ _ (by decide)

/-- C9: with `max_auth_fails_per_15_min = 0`, `is_limited` compares
`count >= 0`, which always holds, so every request from a globally
whitelisted IP is rejected as rate-limited with HTTP 429 — for every
limiter state, including one that has never recorded a failed attempt. -/
theorem claim_C9_zero_max_rate_limits_everyone (g : Whitelist)
    (lim : RateLimiter) (t : DT) (m : List (String × User)) (req : AuthRequest)
    (h1 : g.contains req.ip = true) (h2 : lim.maxAuthFails = 0) :
    (checkAuth g lim t m req).1 = .rateLimited
    ∧ statusOf .rateLimited = 429 := by
  have hl : isLimited lim req.ip t = true := by simp [isLimited, h2]
  exact ⟨by simp [checkAuth, h1, hl], rfl⟩

/-- C9 (witness): a fresh limiter with maximum 0 — no failed attempt ever
recorded — still rejects a request from a whitelisted IP as rate-limited. -/
theorem claim_C9_witness :
    (checkAuth ⟨[⟨true, 0, 4294967295⟩], []⟩
        (limiterFresh ⟨2022, 1, 1, 0, 0⟩ 0) ⟨2022, 1, 1, 0, 0⟩ []
        ⟨⟨true, 5, 5⟩, some "Bearer T", "/x"⟩).1 = .rateLimited
    ∧ statusOf .rateLimited = 429 :=
  claim_C9_zero_max_rate_limits_everyone _ _ _ _ _ (by decide) rfl

/-- C5: the window id is built from unpadded numbers, so the distinct
15-minute windows 2021-05-01 23:00-23:15 and 2021-05-12 03:00-03:15 share
the id "202151230".  Three failed attempts recorded at 2021-05-01 23:05
(reaching the maximum of 3) are still visible when the limiter is read at
2021-05-12 03:07 — in a new wall-clock window the counts read 3, not 0,
and the IP is still rate-limited; reading at 2021-05-01 23:20 (a window
whose id really differs) does reset the counts to 0. -/
theorem claim_C5_stale_counts_after_window_id_collision :
    windowId ⟨2021, 5, 1, 23, 5⟩ = windowId ⟨2021, 5, 12, 3, 7⟩
    ∧ (⟨2021, 5, 1, 23, 5⟩ : DT).day ≠ (⟨2021, 5, 12, 3, 7⟩ : DT).day
    ∧ limiterCounts
        (registerAttempt (registerAttempt (registerAttempt
          (limiterFresh ⟨2021, 5, 1, 23, 5⟩ 3) ⟨true, 5, 5⟩ ⟨2021, 5, 1, 23, 5⟩)
          ⟨true, 5, 5⟩ ⟨2021, 5, 1, 23, 5⟩) ⟨true, 5, 5⟩ ⟨2021, 5, 1, 23, 5⟩)
        ⟨true, 5, 5⟩ ⟨2021, 5, 12, 3, 7⟩ = 3
    ∧ isLimited
        (registerAttempt (registerAttempt (registerAttempt
          (limiterFresh ⟨2021, 5, 1, 23, 5⟩ 3) ⟨true, 5, 5⟩ ⟨2021, 5, 1, 23, 5⟩)
          ⟨true, 5, 5⟩ ⟨2021, 5, 1, 23, 5⟩) ⟨true, 5, 5⟩ ⟨2021, 5, 1, 23, 5⟩)
        ⟨true, 5, 5⟩ ⟨2021, 5, 12, 3, 7⟩ = true
    ∧ limiterCounts
        (registerAttempt (registerAttempt (registerAttempt
          (limiterFresh ⟨2021, 5, 1, 23, 5⟩ 3) ⟨true, 5, 5⟩ ⟨2021, 5, 1, 23, 5⟩)
          ⟨true, 5, 5⟩ ⟨2021, 5, 1, 23, 5⟩) ⟨true, 5, 5⟩ ⟨2021, 5, 1, 23, 5⟩)
        ⟨true, 5, 5⟩ ⟨2021, 5, 1, 23, 20⟩ = 0 := by
  decide

/-- A path accepted by the compiled anchored pattern either matches the
wildcard pattern entirely, or does so after removing a single trailing
newline (the only slack Python's `$` leaves). -/
theorem tokMatch_entire (ts : List Tok) (cs : List Char) (h : tokMatch ts cs = true) :
    globFull ts cs = true ∨ ∃ p, cs = p ++ ['\n'] ∧ globFull ts p = true := by
  induction ts, cs using tokMatch.induct with
  | case1 =>
      left
      simp [globFull]
  | case2 =>
      right
      exact ⟨[], rfl, by simp [globFull]⟩
  | case3 cs hne hnl =>
      exfalso
      rcases cs with _ | ⟨c, _ | ⟨d, rest⟩⟩
      · exact hne rfl
      · by_cases hc : c = '\n'
        · exact hnl (by rw [hc])
        · simp [tokMatch, hc] at h
      · simp [tokMatch] at h
  | case4 c ts d ds ih =>
      rw [tokMatch] at h
      simp only [Bool.and_eq_true, beq_iff_eq] at h
      rcases ih h.2 with hg | ⟨p, hp, hg⟩
      · left
        simp [globFull, h.1, hg]
      · right
        exact ⟨d :: p, by simp [hp], by simp [globFull, h.1, hg]⟩
  | case5 => simp [tokMatch] at h
  | case6 ts ih =>
      rw [tokMatch] at h
      rcases ih h with hg | ⟨p, hp, hg⟩
      · left
        simp [globFull, hg]
      · exact absurd hp (by simp)
  | case7 ts d ds ih2 ih1 =>
      rw [tokMatch] at h
      simp only [Bool.or_eq_true, Bool.and_eq_true, Bool.not_eq_true', beq_eq_false_iff_ne,
        ne_eq] at h
      rcases h with h' | ⟨hd, h'⟩
      · rcases ih2 h' with hg | ⟨p, hp, hg⟩
        · left
          simp [globFull, hg]
        · right
          refine ⟨p, hp, ?_⟩
          cases p <;> simp [globFull, hg]
      · rcases ih1 h' with hg | ⟨p, hp, hg⟩
        · left
          simp [globFull, hg]
        · right
          exact ⟨d :: p, by simp [hp], by simp [globFull, hg]⟩

/-- C10 (counterexample): `pattern.match(request.path)` — the authorization
condition of check_auth (src/scs/auth.py line 306) — accepts the path
"/a/b.json\n" against the compiled pattern for "/a/*.json" (Python's `$`
matches just before a single trailing newline), although the ENTIRE path
does not match the wildcard pattern: the claim's "authorized only if the
entire path matches" fails on paths with a trailing newline. -/
theorem claim_C10_counterexample :
    tokMatch (buildPatternFromPath "/a/*.json") "/a/b.json\n".toList = true
    ∧ globFull (buildPatternFromPath "/a/*.json") "/a/b.json\n".toList = false := by
  constructor
  · simp [buildPatternFromPath, tokenize, tokMatch]
  · simp [buildPatternFromPath, tokenize, globFull]

/-- C10 (amended): every compiled user path pattern is anchored at both
ends up to Python's `$` semantics — a path is accepted only if the entire
path, or the entire path minus a single trailing newline, matches the
wildcard pattern case-insensitively.  In particular a pattern such as
`/configs/a/*` never accepts a path that merely contains `/configs/a/` as
an interior substring: `/x/configs/a/b` does not match. -/
theorem claim_C10_patterns_anchored :
    (∀ (ts : List Tok) (cs : List Char), tokMatch ts cs = true →
      globFull ts cs = true ∨ ∃ p, cs = p ++ ['\n'] ∧ globFull ts p = true)
    ∧ tokMatch (buildPatternFromPath "/configs/a/*") "/x/configs/a/b".toList = false := by
  constructor
  · exact tokMatch_entire
  · simp [buildPatternFromPath, tokenize, tokMatch]

/-- C10 (witness): the anchoring theorem applied to the concrete accepted
pair pattern `/configs/a/*`, path `/configs/a/b`. -/
theorem claim_C10_witness :
    globFull (buildPatternFromPath "/configs/a/*") "/configs/a/b".toList = true
    ∨ ∃ p, "/configs/a/b".toList = p ++ ['\n']
        ∧ globFull (buildPatternFromPath "/configs/a/*") p = true :=
  claim_C10_patterns_anchored.1 (buildPatternFromPath "/configs/a/*")
    "/configs/a/b".toList (by simp [buildPatternFromPath, tokenize, tokMatch])

/-- C7 (counterexample): the claim says a map-key segment applied to a
list raises the dedicated reference-resolution error.  It does not:
walking the list `[1, 2]` with the key segment `"a"` raises `TypeError`
(`list indices must be integers`), which is not caught by
`except (KeyError, IndexError)` and escapes the walk. -/
theorem claim_C7_counterexample :
    resolveAttribute (.plist [.pint 1, .pint 2]) ["a"] = .uncaught .typeError
    ∧ resolveAttribute (.plist [.pint 1, .pint 2]) ["a"] ≠ .refValueError := by
  constructor
  · rfl
  · intro h
    simp [resolveAttribute, walkLevels, getItem, matchIndex, matchIndexChars] at h

/-- C7 (amended): the walk raises the dedicated reference-resolution error
exactly for `KeyError`/`IndexError` — an absent map key, an out-of-range
index into a list — and those two exceptions never escape; but a segment
whose type does not fit the data does NOT get the dedicated error: a
map-key segment applied to a list, or any segment applied to a
non-subscriptable scalar, raises `TypeError`, which escapes the walk
uncaught.  (An index segment applied to a string scalar even resolves to
the character at that position.) -/
theorem claim_C7_walk_error_classification :
    (∀ (kvs : List (String × PVal)) (l : String), matchIndex l = none →
      dictGet kvs l = none → resolveAttribute (.pdict kvs) [l] = .refValueError)
    ∧ (∀ (xs : List PVal) (l : String) (i : Nat), matchIndex l = some i →
      xs.length ≤ i → resolveAttribute (.plist xs) [l] = .refValueError)
    ∧ (∀ (xs : List PVal) (l : String), matchIndex l = none →
      resolveAttribute (.plist xs) [l] = .uncaught .typeError)
    ∧ (∀ (n : Int) (l : String), resolveAttribute (.pint n) [l] = .uncaught .typeError)
    ∧ (∀ (data : PVal) (levels : List String),
      resolveAttribute data levels ≠ .uncaught .keyError
      ∧ resolveAttribute data levels ≠ .uncaught .indexError)
    ∧ resolveAttribute (.pstr "abc") ["[1]"] = .resolved (.pstr "b") := by
  refine ⟨?_, ?_, ?_, ?_, ?_, ?_⟩
  · intro kvs l hm hg
    simp [resolveAttribute, walkLevels, getItem, hm, hg]
  · intro xs l i hm hlen
    have hx : xs[i]? = none := List.getElem?_eq_none hlen
    simp [resolveAttribute, walkLevels, getItem, hm, hx]
  · intro xs l hm
    simp [resolveAttribute, walkLevels, getItem, hm]
  · intro n l
    cases hm : matchIndex l <;> simp [resolveAttribute, walkLevels, getItem, hm]
  · intro data levels
    cases hw : walkLevels data levels with
    | ok v => simp [resolveAttribute, hw]
    | error e => cases e <;> simp [resolveAttribute, hw]
  · rfl

/-- C7 (witness): the amended classification applied at concrete inputs —
a missing key gives the dedicated error, a key segment on a list escapes
as `TypeError`. -/
theorem claim_C7_witness :
    resolveAttribute (.pdict [("a", .pint 1)]) ["b"] = .refValueError
    ∧ resolveAttribute (.plist [.pint 7]) ["b"] = .uncaught .typeError :=
  ⟨claim_C7_walk_error_classification.1 [("a", .pint 1)] "b" rfl rfl,
    claim_C7_walk_error_classification.2.2.1 [.pint 7] "b" rfl⟩

theorem dictGet_dictSet_self (d : List (String × PVal)) (k : String) (v : PVal) :
    dictGet (dictSet d k v) k = some v := by
  induction d with
  | nil => simp [dictSet, dictGet]
  | cons p rest ih =>
      obtain ⟨k0, w0⟩ := p
      by_cases h : k0 = k
      · simp [dictSet, dictGet, h]
      · simp [dictSet, dictGet, h, ih]

theorem dictGet_dictSet_other (d : List (String × PVal)) (k k' : String) (v : PVal)
    (h : k' ≠ k) :
    dictGet (dictSet d k v) k' = dictGet d k' := by
  induction d with
  | nil => simp [dictSet, dictGet, Ne.symm h]
  | cons p rest ih =>
      obtain ⟨k0, w0⟩ := p
      by_cases h0 : k0 = k
      · subst h0
        simp [dictSet, dictGet, Ne.symm h]
      · simp [dictSet, dictGet, h0, ih]

theorem dictGet_eq_none_iff (d : List (String × PVal)) (k : String) :
    dictGet d k = none ↔ k ∉ d.map Prod.fst := by
  induction d with
  | nil => simp [dictGet]
  | cons p rest ih =>
      obtain ⟨k0, w0⟩ := p
      by_cases h0 : k0 = k
      · subst h0
        simp [dictGet]
      · simp [dictGet, h0, ih, Ne.symm h0]

theorem dictGet_mem (d : List (String × PVal)) (k : String) (v : PVal)
    (h : dictGet d k = some v) : (k, v) ∈ d := by
  induction d with
  | nil => simp [dictGet] at h
  | cons p rest ih =>
      obtain ⟨k0, w0⟩ := p
      by_cases h0 : k0 = k
      · subst h0
        simp [dictGet] at h
        simp [h]
      · simp [dictGet, h0] at h
        exact List.mem_cons_of_mem _ (ih h)

theorem dictGet_dictUpdate_not_mem (base other : List (String × PVal)) (g : String)
    (h : g ∉ other.map Prod.fst) :
    dictGet (dictUpdate base other) g = dictGet base g := by
  induction other generalizing base with
  | nil => simp [dictUpdate]
  | cons p rest ih =>
      obtain ⟨k, v⟩ := p
      simp only [List.map_cons, List.mem_cons, not_or] at h
      rw [show dictUpdate base ((k, v) :: rest) = dictUpdate (dictSet base k v) rest from rfl,
        ih _ h.2, dictGet_dictSet_other _ _ _ _ h.1]

theorem dictGet_dictUpdate_mem (base other : List (String × PVal)) (g : String) (w : PVal)
    (hnd : (other.map Prod.fst).Nodup) (h : dictGet other g = some w) :
    dictGet (dictUpdate base other) g = some w := by
  induction other generalizing base with
  | nil => simp [dictGet] at h
  | cons p rest ih =>
      obtain ⟨k, v⟩ := p
      simp only [List.map_cons, List.nodup_cons] at hnd
      rw [show dictUpdate base ((k, v) :: rest) = dictUpdate (dictSet base k v) rest from rfl]
      by_cases hkg : k = g
      · subst hkg
        simp [dictGet] at h
        rw [dictGet_dictUpdate_not_mem _ _ _ hnd.1, dictGet_dictSet_self, h]
      · simp [dictGet, hkg] at h
        exact ih _ hnd.2 h


theorem mergeChild_nondict (root0 : List (String × PVal)) (ck : String) (cv : PVal)
    (h : isDict cv = false) :
    mergeChild root0 ck cv = some (dictSet root0 ck cv) := by
  cases cv <;> simp [mergeChild, isDict] at h ⊢

theorem mergeChild_dict (root0 : List (String × PVal)) (ck : String)
    (kvs existing : List (String × PVal))
    (hg : dictGet root0 ck = some (.pdict existing)) :
    mergeChild root0 ck (.pdict kvs)
      = some (dictSet root0 ck (.pdict (dictUpdate existing kvs))) := by
  simp [mergeChild, hg]

theorem mergeChild_other (root0 root' : List (String × PVal)) (ck : String) (cv : PVal)
    (c : String) (h : mergeChild root0 ck cv = some root') (hne : c ≠ ck) :
    dictGet root' c = dictGet root0 c := by
  cases cv
  case pdict kvs =>
    unfold mergeChild at h
    cases hg : dictGet root0 ck with
    | none => rw [hg] at h; simp at h
    | some v =>
        rw [hg] at h
        cases v <;> simp at h
        case pdict existing =>
          rw [← h, dictGet_dictSet_other _ _ _ _ hne]
  all_goals simp [mergeChild] at h
  all_goals rw [← h, dictGet_dictSet_other _ _ _ _ hne]

theorem stepChild_shape (rk : String) (env env' : List (String × PVal)) (kv : String × PVal)
    (h : stepChild rk env kv = some env') :
    ∃ root0 root', dictGet env rk = some (.pdict root0)
      ∧ mergeChild root0 kv.1 kv.2 = some root'
      ∧ env' = dictSet env rk (.pdict root') := by
  unfold stepChild at h
  cases hg : dictGet env rk with
  | none => rw [hg] at h; simp at h
  | some v =>
      rw [hg] at h
      cases v <;> simp at h
      case pdict root0 =>
        obtain ⟨root', hm, he⟩ := h
        exact ⟨root0, root', rfl, hm, he.symm⟩


theorem stepChild_lookup2_other (rk : String) (env env' : List (String × PVal))
    (kv : String × PVal) (c : String) (h : stepChild rk env kv = some env')
    (hne : c ≠ kv.1) :
    lookup2 env' rk c = lookup2 env rk c := by
  obtain ⟨root0, root', hg, hm, he⟩ := stepChild_shape _ _ _ _ h
  subst he
  simp only [lookup2, dictGet_dictSet_self, hg]
  exact mergeChild_other root0 root' kv.1 kv.2 c hm hne

theorem childrenFold_other_root (rk : String) (children : List (String × PVal)) :
    ∀ env env', childrenFold rk env children = some env' →
      ∀ r', r' ≠ rk → dictGet env' r' = dictGet env r' := by
  induction children with
  | nil =>
      intro env env' h r' hne
      simp [childrenFold] at h
      rw [h]
  | cons kv rest ih =>
      intro env env' h r' hne
      unfold childrenFold at h
      cases hs : stepChild rk env kv with
      | none => rw [hs] at h; simp at h
      | some env1 =>
          rw [hs] at h
          obtain ⟨root0, root', hg, hm, he⟩ := stepChild_shape _ _ _ _ hs
          rw [ih env1 env' h r' hne, he, dictGet_dictSet_other _ _ _ _ hne]

theorem childrenFold_other_child (rk : String) (children : List (String × PVal)) :
    ∀ env env' c, childrenFold rk env children = some env' →
      c ∉ children.map Prod.fst → lookup2 env' rk c = lookup2 env rk c := by
  induction children with
  | nil =>
      intro env env' c h _
      simp [childrenFold] at h
      rw [h]
  | cons kv rest ih =>
      intro env env' c h hnm
      simp only [List.map_cons, List.mem_cons, not_or] at hnm
      unfold childrenFold at h
      cases hs : stepChild rk env kv with
      | none => rw [hs] at h; simp at h
      | some env1 =>
          rw [hs] at h
          rw [ih env1 env' c h hnm.2, stepChild_lookup2_other rk env env1 kv c hs hnm.1]

theorem childrenFold_set_nondict (rk : String) (children : List (String × PVal)) :
    ∀ env env' c cv, (children.map Prod.fst).Nodup → dictGet children c = some cv →
      isDict cv = false → childrenFold rk env children = some env' →
      lookup2 env' rk c = some cv := by
  induction children with
  | nil => intro env env' c cv _ hgc _ _; simp [dictGet] at hgc
  | cons kv rest ih =>
      intro env env' c cv hnd hgc hdict h
      obtain ⟨ck, cw⟩ := kv
      simp only [List.map_cons, List.nodup_cons] at hnd
      unfold childrenFold at h
      cases hs : stepChild rk env (ck, cw) with
      | none => rw [hs] at h; simp at h
      | some env1 =>
          rw [hs] at h
          by_cases hck : ck = c
          · subst hck
            simp [dictGet] at hgc
            subst hgc
            obtain ⟨root0, root', hg, hm, he⟩ := stepChild_shape _ _ _ _ hs
            rw [mergeChild_nondict root0 ck cw hdict] at hm
            have hroot : root' = dictSet root0 ck cw := (Option.some_inj.mp hm).symm
            rw [childrenFold_other_child rk rest env1 env' ck h hnd.1, he, hroot]
            simp [lookup2, dictGet_dictSet_self, dictGet_dictSet_self root0 ck cw]
          · simp only [dictGet, if_neg hck] at hgc
            exact ih env1 env' c cv hnd.2 hgc hdict h

theorem childrenFold_set_dict (rk : String) (children : List (String × PVal)) :
    ∀ env env' c kvs d1, (children.map Prod.fst).Nodup →
      dictGet children c = some (.pdict kvs) → lookup2 env rk c = some (.pdict d1) →
      childrenFold rk env children = some env' →
      lookup2 env' rk c = some (.pdict (dictUpdate d1 kvs)) := by
  induction children with
  | nil => intro env env' c kvs d1 _ hgc _ _; simp [dictGet] at hgc
  | cons kv rest ih =>
      intro env env' c kvs d1 hnd hgc hd1 h
      obtain ⟨ck, cw⟩ := kv
      simp only [List.map_cons, List.nodup_cons] at hnd
      unfold childrenFold at h
      cases hs : stepChild rk env (ck, cw) with
      | none => rw [hs] at h; simp at h
      | some env1 =>
          rw [hs] at h
          by_cases hck : ck = c
          · subst hck
            simp [dictGet] at hgc
            subst hgc
            obtain ⟨root0, root', hg, hm, he⟩ := stepChild_shape _ _ _ _ hs
            have hroot0c : dictGet root0 ck = some (.pdict d1) := by
              rw [lookup2, hg] at hd1
              exact hd1
            rw [mergeChild_dict root0 ck kvs d1 hroot0c] at hm
            have hroot : root' = dictSet root0 ck (.pdict (dictUpdate d1 kvs)) :=
              (Option.some_inj.mp hm).symm
            rw [childrenFold_other_child rk rest env1 env' ck h hnd.1, he, hroot]
            simp [lookup2, dictGet_dictSet_self,
              dictGet_dictSet_self root0 ck (PVal.pdict (dictUpdate d1 kvs))]
          · simp only [dictGet, if_neg hck] at hgc
            have hd1' : lookup2 env1 rk c = some (.pdict d1) := by
              rw [stepChild_lookup2_other rk env env1 (ck, cw) c hs (Ne.symm hck), hd1]
            exact ih env1 env' c kvs d1 hnd.2 hgc hd1' h


theorem lookup2_congr (env1 env2 : List (String × PVal)) (r c : String)
    (h : dictGet env1 r = dictGet env2 r) : lookup2 env1 r c = lookup2 env2 r c := by
  simp [lookup2, h]

theorem mergeFile_root_preserve (file : List (String × PVal)) :
    ∀ env env', mergeFile env file = some env' →
      ∀ r, r ∉ file.map Prod.fst → dictGet env' r = dictGet env r := by
  induction file with
  | nil =>
      intro env env' h r _
      simp [mergeFile] at h
      rw [h]
  | cons p rest ih =>
      intro env env' h r hnm
      obtain ⟨rk, rv⟩ := p
      simp only [List.map_cons, List.mem_cons, not_or] at hnm
      unfold mergeFile at h
      cases hm : mergeRoot env rk rv with
      | none => rw [hm] at h; simp at h
      | some env1 =>
          rw [hm] at h
          cases rv <;> unfold mergeRoot at hm <;> try simp at hm
          case pdict children =>
            rw [ih env1 env' h r hnm.2,
              childrenFold_other_root rk children env env1 hm r hnm.1]

theorem mergeFile_not_set (file : List (String × PVal)) :
    ∀ env env' r c, mergeFile env file = some env' → (file.map Prod.fst).Nodup →
      fileSets file r c = none → lookup2 env' r c = lookup2 env r c := by
  induction file with
  | nil =>
      intro env env' r c h _ _
      simp [mergeFile] at h
      rw [h]
  | cons p rest ih =>
      intro env env' r c h hnd hfs
      obtain ⟨rk, rv⟩ := p
      simp only [List.map_cons, List.nodup_cons] at hnd
      unfold mergeFile at h
      cases hm : mergeRoot env rk rv with
      | none => rw [hm] at h; simp at h
      | some env1 =>
          rw [hm] at h
          cases rv <;> unfold mergeRoot at hm <;> try simp at hm
          case pdict children =>
            by_cases hrk : rk = r
            · subst hrk
              unfold fileSets at hfs
              simp only [dictGet, if_pos rfl] at hfs
              have hcnm : c ∉ children.map Prod.fst := (dictGet_eq_none_iff _ _).mp hfs
              rw [lookup2_congr env' env1 rk c
                  (mergeFile_root_preserve rest env1 env' h rk hnd.1),
                childrenFold_other_child rk children env env1 c hm hcnm]
            · have hfs' : fileSets rest r c = none := by
                unfold fileSets at hfs ⊢
                simp only [dictGet, if_neg hrk] at hfs
                exact hfs
              rw [ih env1 env' r c h hnd.2 hfs',
                lookup2_congr env1 env r c
                  (childrenFold_other_root rk children env env1 hm r (Ne.symm hrk))]


theorem mergeRoot_other_root (env env1 : List (String × PVal)) (rk : String) (rv : PVal)
    (h : mergeRoot env rk rv = some env1) (r : String) (hne : r ≠ rk) :
    dictGet env1 r = dictGet env r := by
  cases rv
  case pdict children =>
    unfold mergeRoot at h
    exact childrenFold_other_root rk children env env1 h r hne
  all_goals simp [mergeRoot] at h

theorem mergeFile_set_nondict (file : List (String × PVal)) :
    ∀ env env' r c cv, mergeFile env file = some env' → (file.map Prod.fst).Nodup →
      (∀ p ∈ file, ∀ kvs, p.2 = PVal.pdict kvs → (kvs.map Prod.fst).Nodup) →
      fileSets file r c = some cv → isDict cv = false →
      lookup2 env' r c = some cv := by
  induction file with
  | nil => intro env env' r c cv _ _ _ hfs _; simp [fileSets, dictGet] at hfs
  | cons p rest ih =>
      intro env env' r c cv h hnd hwf hfs hdict
      obtain ⟨rk, rv⟩ := p
      simp only [List.map_cons, List.nodup_cons] at hnd
      unfold mergeFile at h
      cases hm : mergeRoot env rk rv with
      | none => rw [hm] at h; simp at h
      | some env1 =>
          rw [hm] at h
          by_cases hrk : rk = r
          · subst hrk
            unfold fileSets at hfs
            simp only [dictGet, if_pos rfl] at hfs
            cases rv <;> simp at hfs
            rename_i children
            unfold mergeRoot at hm
            have hcnd : (children.map Prod.fst).Nodup :=
              hwf (rk, PVal.pdict children) (by simp) children rfl
            rw [lookup2_congr env' env1 rk c
                (mergeFile_root_preserve rest env1 env' h rk hnd.1)]
            exact childrenFold_set_nondict rk children env env1 c cv hcnd hfs hdict hm
          · have hfs' : fileSets rest r c = some cv := by
              unfold fileSets at hfs ⊢
              simp only [dictGet, if_neg hrk] at hfs
              exact hfs
            exact ih env1 env' r c cv h hnd.2
              (fun q hq => hwf q (List.mem_cons_of_mem _ hq)) hfs' hdict

theorem mergeFile_set_dict (file : List (String × PVal)) :
    ∀ env env' r c kvs d1, mergeFile env file = some env' → (file.map Prod.fst).Nodup →
      (∀ p ∈ file, ∀ kvs0, p.2 = PVal.pdict kvs0 → (kvs0.map Prod.fst).Nodup) →
      fileSets file r c = some (.pdict kvs) → lookup2 env r c = some (.pdict d1) →
      lookup2 env' r c = some (.pdict (dictUpdate d1 kvs)) := by
  induction file with
  | nil => intro env env' r c kvs d1 _ _ _ hfs _; simp [fileSets, dictGet] at hfs
  | cons p rest ih =>
      intro env env' r c kvs d1 h hnd hwf hfs hd1
      obtain ⟨rk, rv⟩ := p
      simp only [List.map_cons, List.nodup_cons] at hnd
      unfold mergeFile at h
      cases hm : mergeRoot env rk rv with
      | none => rw [hm] at h; simp at h
      | some env1 =>
          rw [hm] at h
          by_cases hrk : rk = r
          · subst hrk
            unfold fileSets at hfs
            simp only [dictGet, if_pos rfl] at hfs
            cases rv <;> simp at hfs
            rename_i children
            unfold mergeRoot at hm
            have hcnd : (children.map Prod.fst).Nodup :=
              hwf (rk, PVal.pdict children) (by simp) children rfl
            rw [lookup2_congr env' env1 rk c
                (mergeFile_root_preserve rest env1 env' h rk hnd.1)]
            exact childrenFold_set_dict rk children env env1 c kvs d1 hcnd hfs hd1 hm
          · have hfs' : fileSets rest r c = some (.pdict kvs) := by
              unfold fileSets at hfs ⊢
              simp only [dictGet, if_neg hrk] at hfs
              exact hfs
            have hd1' : lookup2 env1 r c = some (.pdict d1) := by
              rw [lookup2_congr env1 env r c
                (mergeRoot_other_root env env1 rk rv hm r (Ne.symm hrk)), hd1]
            exact ih env1 env' r c kvs d1 h hnd.2
              (fun q hq => hwf q (List.mem_cons_of_mem _ hq)) hfs' hd1'


/-- C4: merge precedence of `_load_environment`.  With defaults `E` and
override files `A` (earlier) and `B` (later) folded in resolution order
(`loadEnvironment E [A, B]`), for every second-level key `r.c`:
(i) a scalar or list value set by `B` replaces whatever was there;
(ii) a scalar or list value set only in `A` (with `B` not touching `r.c`)
survives into the final environment;
(iii) when `B` sets a dict value and the accumulated value is a dict, the
children are merged key-by-key one level deep with `dict.update`, so a
grandchild key set by `B` gets the value from `B` wholesale — dicts nested
at depth three or more are replaced, not recursively merged;
and (iv) the resolution order of `_get_env_file_hierarchy` starts with the
root default `scs-env.yaml` and ends with the path-specific
`<path>.scs-env.yaml`. -/
theorem claim_C4_env_merge_precedence
    (E A B E1 E2 : List (String × PVal)) (r c : String)
    (wfA : fileWF A) (wfB : fileWF B)
    (hA : mergeFile E A = some E1) (hB : mergeFile E1 B = some E2) :
    loadEnvironment E [A, B] = some E2
    ∧ (∀ v, fileSets B r c = some v → isDict v = false → lookup2 E2 r c = some v)
    ∧ (∀ v, fileSets A r c = some v → isDict v = false → fileSets B r c = none →
        lookup2 E2 r c = some v)
    ∧ (∀ kvsB d1, fileSets B r c = some (.pdict kvsB) →
        lookup2 E1 r c = some (.pdict d1) →
        lookup2 E2 r c = some (.pdict (dictUpdate d1 kvsB))
          ∧ ∀ g w, (kvsB.map Prod.fst).Nodup → dictGet kvsB g = some w →
              dictGet (dictUpdate d1 kvsB) g = some w)
    ∧ ∀ p : String, (getEnvFileHierarchy p).head? = some "scs-env.yaml"
        ∧ (getEnvFileHierarchy p).getLast? = some (p ++ ".scs-env.yaml") := by
  refine ⟨?_, ?_, ?_, ?_, ?_⟩
  · simp [loadEnvironment, hA, hB]
  · intro v hv hd
    exact mergeFile_set_nondict B E1 E2 r c v hB wfB.1 wfB.2 hv hd
  · intro v hv hd hB0
    rw [mergeFile_not_set B E1 E2 r c hB wfB.1 hB0]
    exact mergeFile_set_nondict A E E1 r c v hA wfA.1 wfA.2 hv hd
  · intro kvsB d1 hv hd1
    refine ⟨mergeFile_set_dict B E1 E2 r c kvsB d1 hB wfB.1 wfB.2 hv hd1, ?_⟩
    intro g w hnd hgw
    exact dictGet_dictUpdate_mem d1 kvsB g w hnd hgw
  · intro p
    constructor
    · simp [getEnvFileHierarchy]
    · rw [getEnvFileHierarchy]
      exact List.getLast?_concat _

/-- C4 (witness): the merge-precedence theorem applied to concrete files:
defaults set `template.context = {x: 0, y: 0}`, file A sets
`template.context = {x: 1, y: 2}`, file B sets `template.context = {x: 3}`;
the resolved environment holds `template.context = {x: 3, y: 2}`. -/
theorem claim_C4_witness :
    lookup2 [("template", PVal.pdict
        [("context", PVal.pdict [("x", PVal.pint 3), ("y", PVal.pint 2)])])]
      "template" "context"
      = some (.pdict [("x", PVal.pint 3), ("y", PVal.pint 2)]) := by
  have h := (claim_C4_env_merge_precedence
    [("template", PVal.pdict [("context", PVal.pdict [("x", PVal.pint 0), ("y", PVal.pint 0)])])]
    [("template", PVal.pdict [("context", PVal.pdict [("x", PVal.pint 1), ("y", PVal.pint 2)])])]
    [("template", PVal.pdict [("context", PVal.pdict [("x", PVal.pint 3)])])]
    [("template", PVal.pdict [("context", PVal.pdict [("x", PVal.pint 1), ("y", PVal.pint 2)])])]
    [("template", PVal.pdict [("context", PVal.pdict [("x", PVal.pint 3), ("y", PVal.pint 2)])])]
    "template" "context"
    ⟨by decide, by
      rintro q hq kvs hkvs
      simp only [List.mem_singleton] at hq
      subst hq
      injection hkvs with h1
      subst h1
      decide⟩
    ⟨by decide, by
      rintro q hq kvs hkvs
      simp only [List.mem_singleton] at hq
      subst hq
      injection hkvs with h1
      subst h1
      decide⟩
    rfl rfl).2.2.2.1 [("x", PVal.pint 3)] [("x", PVal.pint 1), ("y", PVal.pint 2)] rfl rfl
  exact h.1

end SCS
